import Mathlib

/-!
Verification of the Israeli RSU tax calculator core (`app.py`).

The development shallowly embeds the core logic of `RSUOptimizer`:
the progressive bracket tax calculator (`calc_progressive_tax`), the
per-grant tax component resolver (`get_tax_components`) and the two-phase
greedy allocation algorithm (`optimize_rsu_sales`).  Python floats are
modelled by `ℚ`; `None`-able market lookups by `Option ℚ`; dates by a
year/month/day triple compared lexicographically.  The external market-data
collaborators (`get_stock_price`, `get_fx_rate`) are out of scope and their
results are passed in explicitly as a `MarketData` record per grant.
-/

/-- Calendar date (year/month/day), compared lexicographically, mirroring
`datetime` comparison in the source. -/
structure Date where
  year : Nat
  month : Nat
  day : Nat
deriving DecidableEq

/-- Strict `<` on dates (lexicographic on year, month, day). -/
def Date.ltb (a b : Date) : Bool :=
  decide (a.year < b.year) ||
    (decide (a.year = b.year) &&
      (decide (a.month < b.month) ||
        (decide (a.month = b.month) && decide (a.day < b.day))))

/-- Gregorian leap-year rule; needed because `dateutil.relativedelta` clamps
the day of month when it would overflow the target month. -/
def isLeapYear (y : Nat) : Bool :=
  (decide (y % 4 = 0) && decide (y % 100 ≠ 0)) || decide (y % 400 = 0)

/-- Length of month `m` in year `y`. -/
def daysInMonth (y m : Nat) : Nat :=
  if m = 2 then (if isLeapYear y then 29 else 28)
  else if m = 4 ∨ m = 6 ∨ m = 9 ∨ m = 11 then 30
  else 31

/-- `grant_date + relativedelta(months=24)`: `relativedelta` normalizes 24
months into 2 years and clamps the day to the target month's length. -/
def add24Months (d : Date) : Date :=
  ⟨d.year + 2, d.month, min d.day (daysInMonth (d.year + 2) d.month)⟩

/-- One tax bracket: upper limit (`none` models `float('inf')`) and marginal
rate. -/
abbrev TaxBracket := Option ℚ × ℚ

/-- `RSUOptimizer.ISRAELI_TAX_BRACKETS_2025`. -/
def ISRAELI_TAX_BRACKETS_2025 : List TaxBracket :=
  [(some 84120, 10/100), (some 120720, 14/100), (some 193800, 20/100),
   (some 269280, 31/100), (some 560280, 35/100), (some 721560, 47/100),
   (none, 50/100)]

/-- `RSUOptimizer.CAPITAL_GAINS_RATE`. -/
def CAPITAL_GAINS_RATE : ℚ := 25/100

/-- The inner `tax_on_income` loop of `calc_progressive_tax`: walk the
bracket list with the running `previous_limit` (which becomes the infinite
limit, `none`, once an unbounded bracket has been consumed) and break as soon
as `income <= previous_limit`. -/
def tax_on_income (income : ℚ) : List TaxBracket → Option ℚ → ℚ
  | [], _ => 0
  | (limit, rate) :: rest, prev =>
    match prev with
    | none => 0
    | some p =>
      if p < income then
        (match limit with
         | some l => min (income - p) (l - p)
         | none => income - p) * rate + tax_on_income income rest limit
      else 0

/-- `RSUOptimizer.calc_progressive_tax`, parameterized by the bracket table
(the source method reads the class constant). -/
def calc_progressive_tax (brackets : List TaxBracket) (incomeStart increment : ℚ) : ℚ :=
  if increment ≤ 0 then 0
  else
    tax_on_income (incomeStart + increment) brackets (some 0)
      - tax_on_income incomeStart brackets (some 0)

/-- Strict ordering of bracket limits, `none` being `+∞`. -/
def limitLtb : Option ℚ → Option ℚ → Bool
  | some a, some b => decide (a < b)
  | some _, none => true
  | none, _ => false

/-- The spec's ordering invariant on a bracket table: limits strictly
increasing, the last limit infinite, and rates non-decreasing. -/
def bracketTableOrdered : List TaxBracket → Bool
  | [] => false
  | [(l, _)] => l.isNone
  | (l1, r1) :: (l2, r2) :: rest =>
    limitLtb l1 l2 && decide (r1 ≤ r2) && bracketTableOrdered ((l2, r2) :: rest)

/-- An input grant row (already validated/cleaned upstream). -/
structure Grant where
  companyName : String
  stockCode : String
  grantDate : Date
  vestingDate : Date
  numberOfUnits : Nat
  section102 : String
deriving DecidableEq

/-- The market lookups a single grant needs (`get_stock_price` and
`get_fx_rate` results); `none` models a `None` return of the excluded
provider. -/
structure MarketData where
  salePriceUsd : Option ℚ
  saleFx : Option ℚ
  grantPriceUsd : Option ℚ
  grantFx : Option ℚ
  vestPriceUsd : Option ℚ
  vestFx : Option ℚ
deriving DecidableEq

/-- The dictionary returned by `get_tax_components`. -/
structure TaxComponents where
  ordinaryPerShare : ℚ
  capitalPerShare : ℚ
  salePriceNis : ℚ
  grantPriceNis : ℚ
  salePriceUsd : ℚ
  grantPriceUsd : ℚ
  note : String
deriving DecidableEq

/-- `RSUOptimizer.get_tax_components`.  The Python guard
`if not all([sale_price_usd, sale_fx, grant_price_usd, grant_fx])` tests
truthiness, so a present-but-zero value fails it exactly like `None`; both
are modelled by the `none` result.  (The source's second guard on
`base_price_usd`/`base_fx` re-tests the two already-checked grant-date
values and can never fire.) -/
def get_tax_components (grant : Grant) (saleDate : Date) (md : MarketData) :
    Option TaxComponents :=
  match md.salePriceUsd, md.saleFx, md.grantPriceUsd, md.grantFx with
  | some sp, some sfx, some gp, some gfx =>
    if sp = 0 ∨ sfx = 0 ∨ gp = 0 ∨ gfx = 0 then none
    else
      let saleNis := sp * sfx
      if grant.section102 = "Capital Gains Route" then
        let base102Nis := gp * gfx
        if saleDate.ltb (add24Months grant.grantDate) then
          some ⟨saleNis, 0, saleNis, gp * gfx, sp, gp,
            "§102 Disqualified (sold < 24m): Full amount is ordinary income."⟩
        else
          some ⟨min base102Nis saleNis, max 0 (saleNis - base102Nis), saleNis,
            gp * gfx, sp, gp,
            if saleNis < base102Nis then
              "§102 Underwater: Ordinary income only, no capital loss."
            else "§102 Capital Gains Route"⟩
      else
        match md.vestPriceUsd, md.vestFx with
        | some vp, some vfx =>
          if vp = 0 ∨ vfx = 0 then none
          else
            some ⟨0, saleNis - vp * vfx, saleNis, gp * gfx, sp, gp,
              "Non-§102: Capital gain/loss from vest date."⟩
        | _, _ => none
  | _, _, _, _ => none

/-- An `efficiency` value: a finite float ratio or `float('inf')`. -/
inductive Eff where
  | fin (q : ℚ)
  | inf
deriving DecidableEq

/-- Strict comparison on efficiencies.  The stable descending sort moves an
element past another only when its key is strictly smaller. -/
def Eff.ltb : Eff → Eff → Bool
  | .fin a, .fin b => decide (a < b)
  | .fin _, .inf => true
  | .inf, _ => false

/-- One element of `grants_to_process`: the grant row merged with its
resolved components and efficiency; `idx` records the source row position
(used only to track grant identity in the statements). -/
structure GrantInfo where
  idx : Nat
  numberOfUnits : Nat
  ordinaryPerShare : ℚ
  capitalPerShare : ℚ
  salePriceNis : ℚ
  note : String
  efficiency : Eff
deriving DecidableEq

/-- The `efficiency` computation in `optimize_rsu_sales`. -/
def mkEfficiency (c : TaxComponents) : Eff :=
  if 0 < c.ordinaryPerShare ∧ 0 < c.capitalPerShare then
    .fin (c.capitalPerShare / c.ordinaryPerShare)
  else if 0 < c.capitalPerShare then .inf
  else .fin 0

/-- Resolve one row into a `grants_to_process` entry (skipped when the
resolver returns `None`). -/
def mkGrantInfo (i : Nat) (g : Grant) (saleDate : Date) (md : MarketData) :
    Option GrantInfo :=
  (get_tax_components g saleDate md).map fun c =>
    ⟨i, g.numberOfUnits, c.ordinaryPerShare, c.capitalPerShare, c.salePriceNis,
      c.note, mkEfficiency c⟩

/-- The `grants_to_process` loop: resolve components row by row, dropping
rows whose resolution fails. -/
def buildGrantInfos (i : Nat) (saleDate : Date) :
    List (Grant × MarketData) → List GrantInfo
  | [] => []
  | (g, md) :: rest =>
    match mkGrantInfo i g saleDate md with
    | none => buildGrantInfos (i + 1) saleDate rest
    | some gi => gi :: buildGrantInfos (i + 1) saleDate rest

/-- Boolean test that `p` is a character-wise initial segment of `s`. -/
def listIsPrefixOf : List Char → List Char → Bool
  | [], _ => true
  | _, [] => false
  | a :: as, b :: bs => a == b && listIsPrefixOf as bs

/-- Python `str.startswith`. -/
def strStartsWith (s p : String) : Bool := listIsPrefixOf p.data s.data

/-- Insert into an efficiency-descending list, after every element with a
strictly larger key (so equal keys keep source order). -/
def insertByEffDesc (a : GrantInfo) : List GrantInfo → List GrantInfo
  | [] => [a]
  | b :: rest =>
    if Eff.ltb a.efficiency b.efficiency then b :: insertByEffDesc a rest
    else a :: b :: rest

/-- Python's stable `sorted(..., key=efficiency, reverse=True)`. -/
def sortByEffDesc : List GrantInfo → List GrantInfo
  | [] => []
  | a :: rest => insertByEffDesc a (sortByEffDesc rest)

/-- Phase-1 candidate filter: §102-classified note, non-negative capital
component and strictly positive ordinary component. -/
def isGainCandidate (g : GrantInfo) : Bool :=
  strStartsWith g.note "§102" && decide (0 ≤ g.capitalPerShare) &&
    decide (0 < g.ordinaryPerShare)

/-- The sorted `s102_gains` list. -/
def s102Gains (gtp : List GrantInfo) : List GrantInfo :=
  sortByEffDesc (gtp.filter isGainCandidate)

/-- The `cap_losses` list (source order). -/
def capLosses (gtp : List GrantInfo) : List GrantInfo :=
  gtp.filter fun g => decide (g.capitalPerShare < 0)

/-- Python `int(...)` applied to a float: truncation toward zero. -/
def pyTrunc (q : ℚ) : ℤ := if 0 ≤ q then ⌊q⌋ else ⌈q⌉

/-- One sale recommendation (a `grants_to_process` entry plus
`units_to_sell`). -/
structure Alloc where
  info : GrantInfo
  unitsToSell : ℤ
deriving DecidableEq

/-- Phase 1 ("gains phase") of `optimize_rsu_sales`: walk the sorted gains,
stop entirely once the income room `target_bracket_limit - running_income`
is exhausted, otherwise sell `min(units, int(room / ord_per_share))` units
and advance the running income (the source's locals `room_for_ord_income`
and `units_to_sell` are written out inline here). -/
def phase1 (target : ℚ) : List GrantInfo → ℚ → List Alloc
  | [], _ => []
  | g :: rest, running =>
    if g.ordinaryPerShare ≤ 0 then phase1 target rest running
    else if target - running ≤ 0 then []
    else if min (g.numberOfUnits : ℤ) (pyTrunc ((target - running) / g.ordinaryPerShare)) ≤ 0 then
      phase1 target rest running
    else
      ⟨g, min (g.numberOfUnits : ℤ) (pyTrunc ((target - running) / g.ordinaryPerShare))⟩ ::
        phase1 target rest
          (running +
            ((min (g.numberOfUnits : ℤ) (pyTrunc ((target - running) / g.ordinaryPerShare)) : ℤ) : ℚ) *
              g.ordinaryPerShare)

/-- `total_cap_gain_to_offset`: capital gain realized by a recommendation
list. -/
def totalCapGainToOffset (recs : List Alloc) : ℚ :=
  (recs.map fun r => r.info.capitalPerShare * (r.unitsToSell : ℚ)).sum

/-- Phase 2 ("loss harvesting") of `optimize_rsu_sales`: walk the loss
candidates in source order, stop once the realized loss reaches the offset
target, otherwise sell `min(units, int(np.ceil(needed / loss_per_share)))`
units.  The values fed to `np.ceil` here are positive, so
`int(np.ceil(x)) = ⌈x⌉`. -/
def phase2 (total : ℚ) : List GrantInfo → ℚ → List Alloc
  | [], _ => []
  | g :: rest, running =>
    if total ≤ running then []
    else if |g.capitalPerShare| ≤ 0 then phase2 total rest running
    else if min (g.numberOfUnits : ℤ) ⌈(total - running) / |g.capitalPerShare|⌉ ≤ 0 then
      phase2 total rest running
    else
      ⟨g, min (g.numberOfUnits : ℤ) ⌈(total - running) / |g.capitalPerShare|⌉⟩ ::
        phase2 total rest
          (running +
            ((min (g.numberOfUnits : ℤ) ⌈(total - running) / |g.capitalPerShare|⌉ : ℤ) : ℚ) *
              |g.capitalPerShare|)

/-- One row of the returned dataframe (numeric fields, before string
formatting). -/
structure FinalRow where
  unitsToSell : ℤ
  ordTotal : ℚ
  capTotal : ℚ
  incomeTax : ℚ
  capitalGainsTax : ℚ
  totalTax : ℚ
  netProceeds : ℚ
  note : String
deriving DecidableEq

/-- The `final_results` loop: per-recommendation tax and proceeds figures,
threading the running ordinary-income accumulator (starting at
`current_income`) through `calc_progressive_tax`. -/
def aggregate : List Alloc → ℚ → List FinalRow
  | [], _ => []
  | r :: rest, running =>
    let ordTotal := r.info.ordinaryPerShare * (r.unitsToSell : ℚ)
    let capTotal := r.info.capitalPerShare * (r.unitsToSell : ℚ)
    let incomeTax := calc_progressive_tax ISRAELI_TAX_BRACKETS_2025 running ordTotal
    let cgt := max 0 capTotal * CAPITAL_GAINS_RATE
    let totalTax := incomeTax + cgt
    ⟨r.unitsToSell, ordTotal, capTotal, incomeTax, cgt, totalTax,
      r.info.salePriceNis * (r.unitsToSell : ℚ) - totalTax, r.info.note⟩ ::
      aggregate rest (running + ordTotal)

/-- `grants_to_process` for a run (row index starting at 0). -/
def grantsToProcess (saleDate : Date) (rows : List (Grant × MarketData)) :
    List GrantInfo :=
  buildGrantInfos 0 saleDate rows

/-- The phase-1 recommendation list of a run. -/
def phase1Recs (saleDate : Date) (rows : List (Grant × MarketData))
    (currentIncome target : ℚ) : List Alloc :=
  phase1 target (s102Gains (grantsToProcess saleDate rows)) currentIncome

/-- The phase-2 recommendation list of a run. -/
def phase2Recs (saleDate : Date) (rows : List (Grant × MarketData))
    (currentIncome target : ℚ) : List Alloc :=
  phase2 (totalCapGainToOffset (phase1Recs saleDate rows currentIncome target))
    (capLosses (grantsToProcess saleDate rows)) 0

/-- The full recommendation list (phase 1 followed by phase 2). -/
def optimizeRecs (saleDate : Date) (rows : List (Grant × MarketData))
    (currentIncome target : ℚ) : List Alloc :=
  phase1Recs saleDate rows currentIncome target ++
    phase2Recs saleDate rows currentIncome target

/-- `RSUOptimizer.optimize_rsu_sales`, with the sale-date snapshot and the
market data passed explicitly.  (The source's `income_room` clamp before the
loops only emits a warning; the loops recompute the room from
`target_bracket_limit - running_income` themselves.) -/
def optimize_rsu_sales (saleDate : Date) (rows : List (Grant × MarketData))
    (currentIncome target : ℚ) : List FinalRow :=
  aggregate (optimizeRecs saleDate rows currentIncome target) currentIncome

/-- Total ordinary income realized by a recommendation list. -/
def ordSold (recs : List Alloc) : ℚ :=
  (recs.map fun r => r.info.ordinaryPerShare * (r.unitsToSell : ℚ)).sum

/-- Total capital loss realized by a recommendation list. -/
def lossSold (recs : List Alloc) : ℚ :=
  (recs.map fun r => (r.unitsToSell : ℚ) * |r.info.capitalPerShare|).sum

/-- Largest per-share loss among a recommendation list (0 when empty). -/
def maxLossPerShare (recs : List Alloc) : ℚ :=
  (recs.map fun r => |r.info.capitalPerShare|).foldr max 0

/-- Units sold for source row `i` across a recommendation list. -/
def unitsSoldFor (recs : List Alloc) (i : Nat) : ℤ :=
  ((recs.filter fun r => r.info.idx == i).map Alloc.unitsToSell).sum

/-- Unit count of the grant of source row `i`, as carried by the
recommendations for it (0 when the row has no recommendation). -/
def unitCountFor (recs : List Alloc) (i : Nat) : ℤ :=
  ((recs.filter fun r => r.info.idx == i).map fun r => (r.info.numberOfUnits : ℤ)).foldr max 0

theorem calc_progressive_tax_nonpos (brackets : List TaxBracket) (b inc : ℚ)
    (h : inc ≤ 0) : calc_progressive_tax brackets b inc = 0 :=
  if_pos h

theorem calc_progressive_tax_pos (brackets : List TaxBracket) (b inc : ℚ)
    (h : 0 < inc) :
    calc_progressive_tax brackets b inc =
      tax_on_income (b + inc) brackets (some 0) - tax_on_income b brackets (some 0) :=
  if_neg (not_le.mpr h)

/-- C4: for every bracket table satisfying the ordering invariant, every base
income and all increments `x, y ≥ 0`, the marginal tax on an income slice is
independent of how the slice is cut:
`taxOnIncrement(base, x+y) = taxOnIncrement(base, x) + taxOnIncrement(base+x, y)`.
(The proof is a telescoping identity on `tax_on_income` and in fact needs no
property of the table beyond its being a list.) -/
theorem tax_on_increment_additive (brackets : List TaxBracket) (base x y : ℚ)
    (_hord : bracketTableOrdered brackets = true) (hx : 0 ≤ x) (hy : 0 ≤ y) :
    calc_progressive_tax brackets base (x + y) =
      calc_progressive_tax brackets base x +
        calc_progressive_tax brackets (base + x) y := by
  by_cases hx0 : x = 0
  · subst hx0
    rw [zero_add, add_zero, calc_progressive_tax_nonpos brackets base 0 le_rfl, zero_add]
  · have hxpos : 0 < x := lt_of_le_of_ne hx (Ne.symm hx0)
    by_cases hy0 : y = 0
    · subst hy0
      rw [add_zero, calc_progressive_tax_nonpos brackets (base + x) 0 le_rfl, add_zero]
    · have hypos : 0 < y := lt_of_le_of_ne hy (Ne.symm hy0)
      have hxy : 0 < x + y := by linarith
      rw [calc_progressive_tax_pos brackets base (x + y) hxy,
        calc_progressive_tax_pos brackets base x hxpos,
        calc_progressive_tax_pos brackets (base + x) y hypos,
        show base + (x + y) = base + x + y by ring]
      ring

theorem tax_on_increment_additive_witness :
    calc_progressive_tax ISRAELI_TAX_BRACKETS_2025 100000 (10000 + 7500) =
      calc_progressive_tax ISRAELI_TAX_BRACKETS_2025 100000 10000 +
        calc_progressive_tax ISRAELI_TAX_BRACKETS_2025 (100000 + 10000) 7500 :=
  tax_on_increment_additive ISRAELI_TAX_BRACKETS_2025 100000 10000 7500
    (by with_unfolding_all decide) (by norm_num) (by norm_num)

/-- C2: a Capital Gains Route grant held at least 24 months and sold
underwater (sale value strictly below grant-date base value) resolves with
capital component 0 and ordinary component equal to the sale value — no
capital loss is recognized in this route. -/
theorem cgr_underwater_components (g : Grant) (d : Date) (md : MarketData)
    (sp sfx gp gfx : ℚ)
    (hroute : g.section102 = "Capital Gains Route")
    (hsp : md.salePriceUsd = some sp) (hsfx : md.saleFx = some sfx)
    (hgp : md.grantPriceUsd = some gp) (hgfx : md.grantFx = some gfx)
    (hsp0 : sp ≠ 0) (hsfx0 : sfx ≠ 0) (hgp0 : gp ≠ 0) (hgfx0 : gfx ≠ 0)
    (hheld : d.ltb (add24Months g.grantDate) = false)
    (hunder : sp * sfx < gp * gfx) :
    ∃ c, get_tax_components g d md = some c ∧
      c.capitalPerShare = 0 ∧ c.ordinaryPerShare = sp * sfx := by
  simp only [get_tax_components, hsp, hsfx, hgp, hgfx, hroute, hheld, hsp0, hsfx0, hgp0,
    hgfx0, hunder, if_true, if_false, or_self, false_or, or_false, if_neg, Bool.false_eq_true,
    ite_false, ite_true]
  refine ⟨_, rfl, ?_, ?_⟩
  · exact max_eq_left (by linarith)
  · exact min_eq_right (le_of_lt hunder)

theorem cgr_underwater_components_witness :
    ∃ c, get_tax_components
        ⟨"A", "A", ⟨2020, 1, 1⟩, ⟨2021, 1, 1⟩, 10, "Capital Gains Route"⟩
        ⟨2022, 6, 1⟩ ⟨some 1, some 1, some 2, some 1, none, none⟩ = some c ∧
      c.capitalPerShare = 0 ∧ c.ordinaryPerShare = 1 * 1 :=
  cgr_underwater_components _ _ _ 1 1 2 1 rfl rfl rfl rfl rfl
    (by norm_num) (by norm_num) (by norm_num) (by norm_num)
    (by with_unfolding_all rfl) (by norm_num)

/-- C3: a Capital Gains Route grant sold before 24 months from the grant date
resolves with the full sale value as ordinary income and capital component 0,
regardless of how the sale value compares to the base value. -/
theorem cgr_disqualified_components (g : Grant) (d : Date) (md : MarketData)
    (sp sfx gp gfx : ℚ)
    (hroute : g.section102 = "Capital Gains Route")
    (hsp : md.salePriceUsd = some sp) (hsfx : md.saleFx = some sfx)
    (hgp : md.grantPriceUsd = some gp) (hgfx : md.grantFx = some gfx)
    (hsp0 : sp ≠ 0) (hsfx0 : sfx ≠ 0) (hgp0 : gp ≠ 0) (hgfx0 : gfx ≠ 0)
    (hheld : d.ltb (add24Months g.grantDate) = true) :
    ∃ c, get_tax_components g d md = some c ∧
      c.ordinaryPerShare = sp * sfx ∧ c.capitalPerShare = 0 := by
  simp only [get_tax_components, hsp, hsfx, hgp, hgfx, hroute, hheld, hsp0, hsfx0, hgp0,
    hgfx0, if_true, if_false, or_self, false_or, or_false, ite_false, ite_true]
  exact ⟨_, rfl, rfl, rfl⟩

theorem cgr_disqualified_components_witness :
    ∃ c, get_tax_components
        ⟨"A", "A", ⟨2021, 5, 1⟩, ⟨2022, 5, 1⟩, 10, "Capital Gains Route"⟩
        ⟨2023, 4, 30⟩ ⟨some 7, some 1, some 2, some 1, none, none⟩ = some c ∧
      c.ordinaryPerShare = 7 * 1 ∧ c.capitalPerShare = 0 :=
  cgr_disqualified_components _ _ _ 7 1 2 1 rfl rfl rfl rfl rfl
    (by norm_num) (by norm_num) (by norm_num) (by norm_num)
    (by with_unfolding_all rfl)

/-- C9: if any required market value resolves to 0 (sale price, sale FX,
grant-date price, grant-date FX, or — for non-statutory routes — vesting-date
price or FX), component resolution fails and the grant is excluded exactly as
if the value were unavailable: the missing-data check tests Python
truthiness, so a legitimate zero is indistinguishable from a lookup failure
(both produce `none`, the same result as a `None` lookup). -/
theorem zero_market_value_excludes_grant (g : Grant) (d : Date) (md : MarketData)
    (h : md.salePriceUsd = some 0 ∨ md.saleFx = some 0 ∨ md.grantPriceUsd = some 0 ∨
      md.grantFx = some 0 ∨
      (g.section102 ≠ "Capital Gains Route" ∧
        (md.vestPriceUsd = some 0 ∨ md.vestFx = some 0))) :
    get_tax_components g d md = none := by
  obtain ⟨a, b, c, e, f, k⟩ := md
  simp only at h
  unfold get_tax_components
  dsimp only
  rcases h with h | h | h | h | ⟨hr, hv⟩
  · subst h
    rcases b with _ | sfx <;> rcases c with _ | gp <;> rcases e with _ | gfx <;> simp
  · subst h
    rcases a with _ | sp <;> rcases c with _ | gp <;> rcases e with _ | gfx <;> simp
  · subst h
    rcases a with _ | sp <;> rcases b with _ | sfx <;> rcases e with _ | gfx <;> simp
  · subst h
    rcases a with _ | sp <;> rcases b with _ | sfx <;> rcases c with _ | gp <;> simp
  · rcases a with _ | sp
    · rfl
    rcases b with _ | sfx
    · rfl
    rcases c with _ | gp
    · rfl
    rcases e with _ | gfx
    · rfl
    by_cases hz : sp = 0 ∨ sfx = 0 ∨ gp = 0 ∨ gfx = 0
    · simp [hz]
    · rcases hv with hv | hv
      · subst hv
        rcases k with _ | vfx <;> simp [hz, hr]
      · subst hv
        rcases f with _ | vp <;> simp [hz, hr]

theorem zero_market_value_excludes_grant_witness :
    get_tax_components ⟨"A", "A", ⟨2020, 1, 1⟩, ⟨2021, 1, 1⟩, 10, "Capital Gains Route"⟩
      ⟨2025, 1, 1⟩ ⟨some 0, some 1, some 1, some 1, none, none⟩ = none :=
  zero_market_value_excludes_grant _ _ _ (Or.inl rfl)

theorem pyTrunc_cast_le {u : ℤ} {q : ℚ} (hq : 0 ≤ q) (hu : u ≤ pyTrunc q) : (u : ℚ) ≤ q := by
  unfold pyTrunc at hu
  rw [if_pos hq] at hu
  exact le_trans (Int.cast_le.mpr hu) (Int.floor_le q)

theorem units_mul_le_room {u : ℤ} {room ord : ℚ} (hord : 0 < ord) (hroom : 0 < room)
    (hu : u ≤ pyTrunc (room / ord)) : (u : ℚ) * ord ≤ room := by
  have h1 : (u : ℚ) ≤ room / ord := pyTrunc_cast_le (le_of_lt (div_pos hroom hord)) hu
  calc (u : ℚ) * ord ≤ room / ord * ord := mul_le_mul_of_nonneg_right h1 (le_of_lt hord)
    _ = room := div_mul_cancel₀ room (ne_of_gt hord)

theorem phase1_units_bounds (target : ℚ) (l : List GrantInfo) :
    ∀ running : ℚ, ∀ r ∈ phase1 target l running,
      0 < r.unitsToSell ∧ r.unitsToSell ≤ (r.info.numberOfUnits : ℤ) := by
  induction l with
  | nil => intro running r hr; rw [phase1] at hr; cases hr
  | cons g rest ih =>
    intro running r hr
    rw [phase1] at hr
    by_cases h1 : g.ordinaryPerShare ≤ 0
    · rw [if_pos h1] at hr; exact ih running r hr
    · rw [if_neg h1] at hr
      by_cases h2 : target - running ≤ 0
      · rw [if_pos h2] at hr; cases hr
      · rw [if_neg h2] at hr
        by_cases h3 :
            min (g.numberOfUnits : ℤ) (pyTrunc ((target - running) / g.ordinaryPerShare)) ≤ 0
        · rw [if_pos h3] at hr; exact ih running r hr
        · rw [if_neg h3] at hr
          rcases List.mem_cons.mp hr with h | h
          · subst h
            exact ⟨lt_of_not_le h3, min_le_left _ _⟩
          · exact ih _ r h

theorem phase1_info_sublist (target : ℚ) (l : List GrantInfo) :
    ∀ running : ℚ, ((phase1 target l running).map Alloc.info).Sublist l := by
  induction l with
  | nil => intro running; rw [phase1]; simp
  | cons g rest ih =>
    intro running
    rw [phase1]
    by_cases h1 : g.ordinaryPerShare ≤ 0
    · rw [if_pos h1]; exact (ih running).cons g
    · rw [if_neg h1]
      by_cases h2 : target - running ≤ 0
      · rw [if_pos h2]; simp
      · rw [if_neg h2]
        by_cases h3 :
            min (g.numberOfUnits : ℤ) (pyTrunc ((target - running) / g.ordinaryPerShare)) ≤ 0
        · rw [if_pos h3]; exact (ih running).cons g
        · rw [if_neg h3]
          rw [List.map_cons]
          exact (ih _).cons₂ g

theorem ordSold_cons (r : Alloc) (recs : List Alloc) :
    ordSold (r :: recs) = r.info.ordinaryPerShare * (r.unitsToSell : ℚ) + ordSold recs := by
  simp [ordSold]

theorem phase1_running_bound (target : ℚ) (l : List GrantInfo) :
    ∀ (running : ℚ) (n : ℕ),
      running + ordSold ((phase1 target l running).take n) ≤ max running target := by
  induction l with
  | nil => intro running n; rw [phase1]; simp [ordSold]
  | cons g rest ih =>
    intro running n
    rw [phase1]
    by_cases h1 : g.ordinaryPerShare ≤ 0
    · rw [if_pos h1]; exact ih running n
    · rw [if_neg h1]
      by_cases h2 : target - running ≤ 0
      · rw [if_pos h2]; simp [ordSold]
      · rw [if_neg h2]
        by_cases h3 :
            min (g.numberOfUnits : ℤ) (pyTrunc ((target - running) / g.ordinaryPerShare)) ≤ 0
        · rw [if_pos h3]; exact ih running n
        · rw [if_neg h3]
          cases n with
          | zero => simp [ordSold]
          | succ m =>
            rw [List.take_succ_cons, ordSold_cons]
            dsimp only
            have hord : 0 < g.ordinaryPerShare := lt_of_not_le h1
            have hroom : 0 < target - running := lt_of_not_le h2
            have hle :
                ((min (g.numberOfUnits : ℤ)
                    (pyTrunc ((target - running) / g.ordinaryPerShare)) : ℤ) : ℚ) *
                  g.ordinaryPerShare ≤ target - running :=
              units_mul_le_room hord hroom (min_le_right _ _)
            have hbd := ih
              (running +
                ((min (g.numberOfUnits : ℤ)
                    (pyTrunc ((target - running) / g.ordinaryPerShare)) : ℤ) : ℚ) *
                  g.ordinaryPerShare) m
            rw [max_eq_right (by linarith)] at hbd
            refine le_trans ?_ (le_max_right running target)
            linarith [hbd]

/-- C5: in phase 1 (the gains phase), for every input grant list, income and
ceiling, each recommendation's `unitsToSell` never exceeds that grant's unit
count (and is positive), and the running ordinary income starting at
`currentIncome` is never pushed above `targetBracketCeiling` at all (hence in
particular never by more than one unit's ordinary contribution): the
floor-division unit choice keeps every prefix of the phase-1 plan within the
ceiling, and selection stops once the room is exhausted. -/
theorem phase1_selection_invariant (saleDate : Date) (rows : List (Grant × MarketData))
    (currentIncome target : ℚ) :
    (∀ r ∈ phase1Recs saleDate rows currentIncome target,
        0 < r.unitsToSell ∧ r.unitsToSell ≤ (r.info.numberOfUnits : ℤ)) ∧
      ∀ n : ℕ,
        currentIncome + ordSold ((phase1Recs saleDate rows currentIncome target).take n) ≤
          max currentIncome target :=
  ⟨phase1_units_bounds target _ currentIncome, phase1_running_bound target _ currentIncome⟩

theorem phase1_selection_invariant_witness :
    0 < (100 : ℤ) ∧ (100 : ℤ) ≤ ((100 : Nat) : ℤ) := by
  have hm : phase1Recs ⟨2025, 10, 12⟩
      [(⟨"Example Corp", "EX", ⟨2020, 1, 1⟩, ⟨2021, 1, 1⟩, 100, "Capital Gains Route"⟩,
        ⟨some 570, some 1, some 175, some 1, none, none⟩)] 100000 269280 =
      [⟨⟨0, 100, 175, 395, 570, "§102 Capital Gains Route", .fin (395/175)⟩, 100⟩] := by
    with_unfolding_all rfl
  exact (phase1_selection_invariant ⟨2025, 10, 12⟩
      [(⟨"Example Corp", "EX", ⟨2020, 1, 1⟩, ⟨2021, 1, 1⟩, 100, "Capital Gains Route"⟩,
        ⟨some 570, some 1, some 175, some 1, none, none⟩)] 100000 269280).1
    ⟨⟨0, 100, 175, 395, 570, "§102 Capital Gains Route", .fin (395/175)⟩, 100⟩
    (by rw [hm]; exact List.mem_singleton_self _)

theorem lossSold_cons (r : Alloc) (recs : List Alloc) :
    lossSold (r :: recs) = (r.unitsToSell : ℚ) * |r.info.capitalPerShare| + lossSold recs := by
  simp [lossSold]

theorem maxLossPerShare_cons (r : Alloc) (recs : List Alloc) :
    maxLossPerShare (r :: recs) = max |r.info.capitalPerShare| (maxLossPerShare recs) := by
  simp [maxLossPerShare]

theorem units_mul_lt_needed_add {u : ℤ} {needed loss : ℚ} (hloss : 0 < loss)
    (hu : u ≤ ⌈needed / loss⌉) : (u : ℚ) * loss < needed + loss := by
  have h1 : (u : ℚ) ≤ (⌈needed / loss⌉ : ℤ) := Int.cast_le.mpr hu
  have h2 : ((⌈needed / loss⌉ : ℤ) : ℚ) < needed / loss + 1 := Int.ceil_lt_add_one _
  have h3 : (u : ℚ) * loss < (needed / loss + 1) * loss :=
    mul_lt_mul_of_pos_right (lt_of_le_of_lt h1 h2) hloss
  calc (u : ℚ) * loss < (needed / loss + 1) * loss := h3
    _ = needed / loss * loss + loss := by ring
    _ = needed + loss := by rw [div_mul_cancel₀ needed (ne_of_gt hloss)]

theorem phase2_units_bounds (total : ℚ) (l : List GrantInfo) :
    ∀ running : ℚ, ∀ r ∈ phase2 total l running,
      0 < r.unitsToSell ∧ r.unitsToSell ≤ (r.info.numberOfUnits : ℤ) := by
  induction l with
  | nil => intro running r hr; rw [phase2] at hr; cases hr
  | cons g rest ih =>
    intro running r hr
    rw [phase2] at hr
    by_cases h1 : total ≤ running
    · rw [if_pos h1] at hr; cases hr
    · rw [if_neg h1] at hr
      by_cases h2 : |g.capitalPerShare| ≤ 0
      · rw [if_pos h2] at hr; exact ih running r hr
      · rw [if_neg h2] at hr
        by_cases h3 :
            min (g.numberOfUnits : ℤ) ⌈(total - running) / |g.capitalPerShare|⌉ ≤ 0
        · rw [if_pos h3] at hr; exact ih running r hr
        · rw [if_neg h3] at hr
          rcases List.mem_cons.mp hr with h | h
          · subst h
            exact ⟨lt_of_not_le h3, min_le_left _ _⟩
          · exact ih _ r h

theorem phase2_info_sublist (total : ℚ) (l : List GrantInfo) :
    ∀ running : ℚ, ((phase2 total l running).map Alloc.info).Sublist l := by
  induction l with
  | nil => intro running; rw [phase2]; simp
  | cons g rest ih =>
    intro running
    rw [phase2]
    by_cases h1 : total ≤ running
    · rw [if_pos h1]; simp
    · rw [if_neg h1]
      by_cases h2 : |g.capitalPerShare| ≤ 0
      · rw [if_pos h2]; exact (ih running).cons g
      · rw [if_neg h2]
        by_cases h3 :
            min (g.numberOfUnits : ℤ) ⌈(total - running) / |g.capitalPerShare|⌉ ≤ 0
        · rw [if_pos h3]; exact (ih running).cons g
        · rw [if_neg h3]
          rw [List.map_cons]
          exact (ih _).cons₂ g

theorem phase2_prefix_lt (total : ℚ) (l : List GrantInfo) :
    ∀ (running : ℚ) (n : ℕ), n < (phase2 total l running).length →
      running + lossSold ((phase2 total l running).take n) < total := by
  induction l with
  | nil => intro running n hn; rw [phase2] at hn; simp at hn
  | cons g rest ih =>
    intro running n hn
    rw [phase2] at hn ⊢
    by_cases h1 : total ≤ running
    · rw [if_pos h1] at hn; simp at hn
    · rw [if_neg h1] at hn ⊢
      by_cases h2 : |g.capitalPerShare| ≤ 0
      · rw [if_pos h2] at hn ⊢; exact ih running n hn
      · rw [if_neg h2] at hn ⊢
        by_cases h3 :
            min (g.numberOfUnits : ℤ) ⌈(total - running) / |g.capitalPerShare|⌉ ≤ 0
        · rw [if_pos h3] at hn ⊢; exact ih running n hn
        · rw [if_neg h3] at hn ⊢
          cases n with
          | zero =>
            simp only [List.take_zero]
            have : lossSold ([] : List Alloc) = 0 := rfl
            rw [this, add_zero]
            exact lt_of_not_le h1
          | succ m =>
            rw [List.length_cons, Nat.succ_lt_succ_iff] at hn
            rw [List.take_succ_cons, lossSold_cons]
            dsimp only
            have hbd := ih
              (running +
                ((min (g.numberOfUnits : ℤ)
                    ⌈(total - running) / |g.capitalPerShare|⌉ : ℤ) : ℚ) *
                  |g.capitalPerShare|) m hn
            linarith [hbd]

theorem phase2_final_bound (total : ℚ) (l : List GrantInfo) :
    ∀ running : ℚ, phase2 total l running ≠ [] →
      running + lossSold (phase2 total l running) <
        total + maxLossPerShare (phase2 total l running) := by
  induction l with
  | nil => intro running hne; rw [phase2] at hne; exact absurd rfl hne
  | cons g rest ih =>
    intro running hne
    rw [phase2] at hne ⊢
    by_cases h1 : total ≤ running
    · rw [if_pos h1] at hne; exact absurd rfl hne
    · rw [if_neg h1] at hne ⊢
      by_cases h2 : |g.capitalPerShare| ≤ 0
      · rw [if_pos h2] at hne ⊢; exact ih running hne
      · rw [if_neg h2] at hne ⊢
        by_cases h3 :
            min (g.numberOfUnits : ℤ) ⌈(total - running) / |g.capitalPerShare|⌉ ≤ 0
        · rw [if_pos h3] at hne ⊢; exact ih running hne
        · rw [if_neg h3] at hne ⊢
          rw [lossSold_cons, maxLossPerShare_cons]
          dsimp only
          have hloss : 0 < |g.capitalPerShare| := lt_of_not_le h2
          by_cases htail : phase2 total rest
              (running +
                ((min (g.numberOfUnits : ℤ)
                    ⌈(total - running) / |g.capitalPerShare|⌉ : ℤ) : ℚ) *
                  |g.capitalPerShare|) = []
          · rw [htail]
            have h0 : lossSold ([] : List Alloc) = 0 := rfl
            have h0m : maxLossPerShare ([] : List Alloc) = 0 := rfl
            rw [h0, h0m, max_eq_left (le_of_lt hloss)]
            have hlt :
                ((min (g.numberOfUnits : ℤ)
                    ⌈(total - running) / |g.capitalPerShare|⌉ : ℤ) : ℚ) *
                  |g.capitalPerShare| < (total - running) + |g.capitalPerShare| :=
              units_mul_lt_needed_add hloss (min_le_right _ _)
            linarith
          · have hbd := ih
              (running +
                ((min (g.numberOfUnits : ℤ)
                    ⌈(total - running) / |g.capitalPerShare|⌉ : ℤ) : ℚ) *
                  |g.capitalPerShare|) htail
            have hmax := le_max_right |g.capitalPerShare|
              (maxLossPerShare (phase2 total rest
                (running +
                  ((min (g.numberOfUnits : ℤ)
                      ⌈(total - running) / |g.capitalPerShare|⌉ : ℤ) : ℚ) *
                    |g.capitalPerShare|)))
            linarith

theorem phase2_empty_of_done (total : ℚ) (l : List GrantInfo) (running : ℚ)
    (h : total ≤ running) : phase2 total l running = [] := by
  cases l with
  | nil => rw [phase2]
  | cons g rest => rw [phase2, if_pos h]

/-- C6: in phase 2 (loss harvesting), for every input: loss candidates are
processed in source order (the phase-2 plan is a sublist of `cap_losses`),
each recommendation's `unitsToSell` is positive and never exceeds the
grant's unit count, harvesting stops once the cumulative loss reaches
`totalCapitalGainToOffset` (before each sold grant the cumulative loss is
still below the target), and the final cumulative loss overshoots the target
by less than one grant's per-share loss (ceiling-division guarantee). -/
theorem phase2_harvest_invariant (saleDate : Date) (rows : List (Grant × MarketData))
    (currentIncome target : ℚ) :
    ((phase2Recs saleDate rows currentIncome target).map Alloc.info).Sublist
        (capLosses (grantsToProcess saleDate rows)) ∧
      (∀ r ∈ phase2Recs saleDate rows currentIncome target,
          0 < r.unitsToSell ∧ r.unitsToSell ≤ (r.info.numberOfUnits : ℤ)) ∧
      (∀ n : ℕ, n < (phase2Recs saleDate rows currentIncome target).length →
          lossSold ((phase2Recs saleDate rows currentIncome target).take n) <
            totalCapGainToOffset (phase1Recs saleDate rows currentIncome target)) ∧
      (phase2Recs saleDate rows currentIncome target = [] ∨
        lossSold (phase2Recs saleDate rows currentIncome target) <
          totalCapGainToOffset (phase1Recs saleDate rows currentIncome target) +
            maxLossPerShare (phase2Recs saleDate rows currentIncome target)) := by
  refine ⟨phase2_info_sublist _ _ 0, phase2_units_bounds _ _ 0, ?_, ?_⟩
  · intro n hn
    have h := phase2_prefix_lt
      (totalCapGainToOffset (phase1Recs saleDate rows currentIncome target))
      (capLosses (grantsToProcess saleDate rows)) 0 n hn
    rwa [zero_add] at h
  · by_cases h : phase2Recs saleDate rows currentIncome target = []
    · exact Or.inl h
    · refine Or.inr ?_
      have hb := phase2_final_bound
        (totalCapGainToOffset (phase1Recs saleDate rows currentIncome target))
        (capLosses (grantsToProcess saleDate rows)) 0 h
      rwa [zero_add] at hb

theorem phase2_harvest_invariant_witness :
    lossSold ((phase2Recs ⟨2025, 10, 12⟩
        [(⟨"G", "G", ⟨2020, 1, 1⟩, ⟨2021, 1, 1⟩, 10, "Capital Gains Route"⟩,
          ⟨some 570, some 1, some 175, some 1, none, none⟩),
         (⟨"L", "L", ⟨2020, 1, 1⟩, ⟨2021, 1, 1⟩, 10, "None"⟩,
          ⟨some 1, some 1, some 2, some 1, some 3, some 1⟩)] 100000 269280).take 0) <
      totalCapGainToOffset (phase1Recs ⟨2025, 10, 12⟩
        [(⟨"G", "G", ⟨2020, 1, 1⟩, ⟨2021, 1, 1⟩, 10, "Capital Gains Route"⟩,
          ⟨some 570, some 1, some 175, some 1, none, none⟩),
         (⟨"L", "L", ⟨2020, 1, 1⟩, ⟨2021, 1, 1⟩, 10, "None"⟩,
          ⟨some 1, some 1, some 2, some 1, some 3, some 1⟩)] 100000 269280) := by
  have hm : phase2Recs ⟨2025, 10, 12⟩
      [(⟨"G", "G", ⟨2020, 1, 1⟩, ⟨2021, 1, 1⟩, 10, "Capital Gains Route"⟩,
        ⟨some 570, some 1, some 175, some 1, none, none⟩),
       (⟨"L", "L", ⟨2020, 1, 1⟩, ⟨2021, 1, 1⟩, 10, "None"⟩,
        ⟨some 1, some 1, some 2, some 1, some 3, some 1⟩)] 100000 269280 =
      [⟨⟨1, 10, 0, -2, 1, "Non-§102: Capital gain/loss from vest date.", .fin 0⟩, 10⟩] := by
    with_unfolding_all rfl
  exact (phase2_harvest_invariant ⟨2025, 10, 12⟩
      [(⟨"G", "G", ⟨2020, 1, 1⟩, ⟨2021, 1, 1⟩, 10, "Capital Gains Route"⟩,
        ⟨some 570, some 1, some 175, some 1, none, none⟩),
       (⟨"L", "L", ⟨2020, 1, 1⟩, ⟨2021, 1, 1⟩, 10, "None"⟩,
        ⟨some 1, some 1, some 2, some 1, some 3, some 1⟩)] 100000 269280).2.2.1 0
    (by rw [hm]; norm_num)

theorem phase1_empty_of_no_room (target : ℚ) (l : List GrantInfo) :
    ∀ running : ℚ, target ≤ running → phase1 target l running = [] := by
  induction l with
  | nil => intro running h; rw [phase1]
  | cons g rest ih =>
    intro running h
    rw [phase1]
    by_cases h1 : g.ordinaryPerShare ≤ 0
    · rw [if_pos h1]; exact ih running h
    · rw [if_neg h1, if_pos (by linarith : target - running ≤ 0)]

/-- C8: when `targetBracketCeiling ≤ currentIncome` the income room is
exhausted from the start, phase 1 selects no grants, and the optimizer still
returns a (here empty) recommendation list rather than failing: the run
degrades gracefully, like `MissingMarketData` skips and an empty plan. -/
theorem no_income_room_graceful (saleDate : Date) (rows : List (Grant × MarketData))
    (currentIncome target : ℚ) (h : target ≤ currentIncome) :
    phase1Recs saleDate rows currentIncome target = [] ∧
      optimizeRecs saleDate rows currentIncome target = [] := by
  have h1 : phase1Recs saleDate rows currentIncome target = [] :=
    phase1_empty_of_no_room target _ currentIncome h
  have h2 : phase2Recs saleDate rows currentIncome target = [] := by
    unfold phase2Recs
    rw [h1]
    exact phase2_empty_of_done _ _ 0 (by simp [totalCapGainToOffset])
  refine ⟨h1, ?_⟩
  unfold optimizeRecs
  rw [h1, h2]
  rfl

theorem no_income_room_graceful_witness :
    phase1Recs ⟨2025, 1, 1⟩ [] (10 : ℚ) 5 = [] ∧
      optimizeRecs ⟨2025, 1, 1⟩ [] (10 : ℚ) 5 = [] :=
  no_income_room_graceful ⟨2025, 1, 1⟩ [] 10 5 (by norm_num)

/-- C10: if phase 1 produces no recommendations, or every phase-1
recommendation carries capital component 0 (so the offset target is 0),
phase 2 produces no recommendations: no capital-loss grant is sold unless
phase 1 realized strictly positive capital gains to offset. -/
theorem no_gain_no_harvest (saleDate : Date) (rows : List (Grant × MarketData))
    (currentIncome target : ℚ)
    (h : phase1Recs saleDate rows currentIncome target = [] ∨
      ∀ r ∈ phase1Recs saleDate rows currentIncome target, r.info.capitalPerShare = 0) :
    phase2Recs saleDate rows currentIncome target = [] := by
  have htot : totalCapGainToOffset (phase1Recs saleDate rows currentIncome target) = 0 := by
    rcases h with h | h
    · rw [h]; rfl
    · unfold totalCapGainToOffset
      apply List.sum_eq_zero
      intro x hx
      simp only [List.mem_map] at hx
      obtain ⟨r, hr, rfl⟩ := hx
      rw [h r hr, zero_mul]
  unfold phase2Recs
  rw [htot]
  exact phase2_empty_of_done _ _ 0 le_rfl

theorem no_gain_no_harvest_witness :
    phase2Recs ⟨2025, 1, 1⟩ [] (0 : ℚ) 100 = [] :=
  no_gain_no_harvest ⟨2025, 1, 1⟩ [] 0 100 (Or.inl (by with_unfolding_all rfl))

theorem mkGrantInfo_idx {i : Nat} {g : Grant} {d : Date} {md : MarketData} {gi : GrantInfo}
    (h : mkGrantInfo i g d md = some gi) : gi.idx = i := by
  unfold mkGrantInfo at h
  rcases Option.map_eq_some'.mp h with ⟨c, _, hgi⟩
  rw [← hgi]

theorem buildGrantInfos_idx_ge (saleDate : Date) :
    ∀ (rows : List (Grant × MarketData)) (i : Nat) (gi : GrantInfo),
      gi ∈ buildGrantInfos i saleDate rows → i ≤ gi.idx := by
  intro rows
  induction rows with
  | nil => intro i gi h; rw [buildGrantInfos] at h; cases h
  | cons p rest ih =>
    intro i gi h
    obtain ⟨g, md⟩ := p
    rw [buildGrantInfos] at h
    cases hm : mkGrantInfo i g saleDate md with
    | none =>
      rw [hm] at h
      exact le_trans (Nat.le_succ i) (ih (i + 1) gi h)
    | some gi2 =>
      rw [hm] at h
      rcases List.mem_cons.mp h with h | h
      · subst h; rw [mkGrantInfo_idx hm]
      · exact le_trans (Nat.le_succ i) (ih (i + 1) gi h)

theorem buildGrantInfos_pairwise (saleDate : Date) :
    ∀ (rows : List (Grant × MarketData)) (i : Nat),
      (buildGrantInfos i saleDate rows).Pairwise (fun a b => a.idx ≠ b.idx) := by
  intro rows
  induction rows with
  | nil => intro i; rw [buildGrantInfos]; exact List.Pairwise.nil
  | cons p rest ih =>
    intro i
    obtain ⟨g, md⟩ := p
    rw [buildGrantInfos]
    cases hm : mkGrantInfo i g saleDate md with
    | none => exact ih (i + 1)
    | some gi =>
      refine List.Pairwise.cons ?_ (ih (i + 1))
      intro b hb
      have hbge : i + 1 ≤ b.idx := buildGrantInfos_idx_ge saleDate rest (i + 1) b hb
      rw [mkGrantInfo_idx hm]
      omega

theorem eq_of_mem_pairwise_idx :
    ∀ {l : List GrantInfo}, l.Pairwise (fun a b => a.idx ≠ b.idx) →
      ∀ {a b : GrantInfo}, a ∈ l → b ∈ l → a.idx = b.idx → a = b := by
  intro l hl
  induction hl with
  | nil => intro a b ha; cases ha
  | cons hx _ ih =>
    intro a b ha hb heq
    rcases List.mem_cons.mp ha with rfl | ha2
    · rcases List.mem_cons.mp hb with rfl | hb2
      · rfl
      · exact absurd heq (hx b hb2)
    · rcases List.mem_cons.mp hb with rfl | hb2
      · exact absurd heq.symm (hx a ha2)
      · exact ih ha2 hb2 heq

theorem insertByEffDesc_perm (a : GrantInfo) :
    ∀ l : List GrantInfo, (insertByEffDesc a l).Perm (a :: l) := by
  intro l
  induction l with
  | nil => rw [insertByEffDesc]
  | cons b rest ih =>
    rw [insertByEffDesc]
    by_cases h : Eff.ltb a.efficiency b.efficiency
    · rw [if_pos h]
      exact (ih.cons b).trans (List.Perm.swap a b rest)
    · rw [if_neg h]

theorem sortByEffDesc_perm : ∀ l : List GrantInfo, (sortByEffDesc l).Perm l := by
  intro l
  induction l with
  | nil => rw [sortByEffDesc]
  | cons a rest ih =>
    rw [sortByEffDesc]
    exact (insertByEffDesc_perm a (sortByEffDesc rest)).trans (ih.cons a)

theorem mem_s102Gains {gtp : List GrantInfo} {g : GrantInfo} (h : g ∈ s102Gains gtp) :
    g ∈ gtp ∧ 0 ≤ g.capitalPerShare := by
  unfold s102Gains at h
  have h2 := (sortByEffDesc_perm _).mem_iff.mp h
  rw [List.mem_filter] at h2
  refine ⟨h2.1, ?_⟩
  have h3 := h2.2
  unfold isGainCandidate at h3
  simp only [Bool.and_eq_true, decide_eq_true_eq] at h3
  exact h3.1.2

theorem mem_capLosses {gtp : List GrantInfo} {g : GrantInfo} (h : g ∈ capLosses gtp) :
    g ∈ gtp ∧ g.capitalPerShare < 0 := by
  unfold capLosses at h
  rw [List.mem_filter] at h
  exact ⟨h.1, by simpa using h.2⟩

theorem s102Gains_pairwise {gtp : List GrantInfo}
    (h : gtp.Pairwise (fun a b => a.idx ≠ b.idx)) :
    (s102Gains gtp).Pairwise (fun a b => a.idx ≠ b.idx) := by
  unfold s102Gains
  have hf : (gtp.filter isGainCandidate).Pairwise (fun a b => a.idx ≠ b.idx) :=
    h.filter _
  exact ((sortByEffDesc_perm _).pairwise_iff fun hab => Ne.symm hab).mpr hf

theorem capLosses_pairwise {gtp : List GrantInfo}
    (h : gtp.Pairwise (fun a b => a.idx ≠ b.idx)) :
    (capLosses gtp).Pairwise (fun a b => a.idx ≠ b.idx) :=
  h.filter _

theorem unitsSoldFor_cons (r : Alloc) (rest : List Alloc) (i : Nat) :
    unitsSoldFor (r :: rest) i =
      (if r.info.idx = i then r.unitsToSell else 0) + unitsSoldFor rest i := by
  unfold unitsSoldFor
  by_cases h : r.info.idx = i
  · rw [List.filter_cons_of_pos (by simpa using h), if_pos h, List.map_cons, List.sum_cons]
  · rw [List.filter_cons_of_neg (by simpa using h), if_neg h, zero_add]

theorem unitCountFor_cons (r : Alloc) (rest : List Alloc) (i : Nat) :
    unitCountFor (r :: rest) i =
      if r.info.idx = i then max (r.info.numberOfUnits : ℤ) (unitCountFor rest i)
      else unitCountFor rest i := by
  unfold unitCountFor
  by_cases h : r.info.idx = i
  · rw [List.filter_cons_of_pos (by simpa using h), if_pos h, List.map_cons, List.foldr_cons]
  · rw [List.filter_cons_of_neg (by simpa using h), if_neg h]

theorem unitsSoldFor_eq_zero {rest : List Alloc} {i : Nat}
    (h : ∀ s ∈ rest, s.info.idx ≠ i) : unitsSoldFor rest i = 0 := by
  unfold unitsSoldFor
  have hf : rest.filter (fun s => s.info.idx == i) = [] := by
    rw [List.filter_eq_nil_iff]
    intro s hs
    simpa using h s hs
  rw [hf]
  rfl

theorem unitsSoldFor_le_of_nodup :
    ∀ recs : List Alloc,
      (∀ r ∈ recs, 0 < r.unitsToSell ∧ r.unitsToSell ≤ (r.info.numberOfUnits : ℤ)) →
      ((recs.map fun r => r.info.idx).Nodup) →
      ∀ i : Nat, unitsSoldFor recs i ≤ unitCountFor recs i := by
  intro recs
  induction recs with
  | nil => intro _ _ i; simp [unitsSoldFor, unitCountFor]
  | cons r rest ih =>
    intro hb hnd i
    rw [List.map_cons, List.nodup_cons] at hnd
    rw [unitsSoldFor_cons, unitCountFor_cons]
    by_cases hi : r.info.idx = i
    · rw [if_pos hi, if_pos hi]
      have h0 : unitsSoldFor rest i = 0 := by
        apply unitsSoldFor_eq_zero
        intro s hs hsi
        exact hnd.1 (List.mem_map.mpr ⟨s, hs, by rw [hsi, hi]⟩)
      rw [h0, add_zero]
      exact le_trans (hb r (List.mem_cons_self r rest)).2 (le_max_left _ _)
    · rw [if_neg hi, if_neg hi, zero_add]
      exact ih (fun s hs => hb s (List.mem_cons_of_mem r hs)) hnd.2 i

/-- C7: every recommendation of a run satisfies `0 < unitsToSell ≤
grant.unitCount`, no source row is recommended twice (in particular no grant
is recommended by both phases: their row indices are pairwise distinct), and
hence the units sold for any source row never exceed that row's unit
count. -/
theorem optimizeRecs_grant_bounds (saleDate : Date) (rows : List (Grant × MarketData))
    (currentIncome target : ℚ) :
    (∀ r ∈ optimizeRecs saleDate rows currentIncome target,
        0 < r.unitsToSell ∧ r.unitsToSell ≤ (r.info.numberOfUnits : ℤ)) ∧
      ((optimizeRecs saleDate rows currentIncome target).map fun r => r.info.idx).Nodup ∧
      ∀ i : Nat, unitsSoldFor (optimizeRecs saleDate rows currentIncome target) i ≤
        unitCountFor (optimizeRecs saleDate rows currentIncome target) i := by
  have hbounds : ∀ r ∈ optimizeRecs saleDate rows currentIncome target,
      0 < r.unitsToSell ∧ r.unitsToSell ≤ (r.info.numberOfUnits : ℤ) := by
    intro r hr
    rcases List.mem_append.mp hr with h | h
    · exact phase1_units_bounds _ _ _ r h
    · exact phase2_units_bounds _ _ _ r h
  have hpair : (grantsToProcess saleDate rows).Pairwise (fun a b => a.idx ≠ b.idx) :=
    buildGrantInfos_pairwise saleDate rows 0
  have hp1 : (phase1Recs saleDate rows currentIncome target).Pairwise
      (fun r s => r.info.idx ≠ s.info.idx) := by
    have hs : ((phase1Recs saleDate rows currentIncome target).map Alloc.info).Pairwise
        (fun a b => a.idx ≠ b.idx) :=
      List.Pairwise.sublist (phase1_info_sublist _ _ _) (s102Gains_pairwise hpair)
    exact (@List.pairwise_map Alloc GrantInfo Alloc.info (fun a b => a.idx ≠ b.idx) _).mp hs
  have hp2 : (phase2Recs saleDate rows currentIncome target).Pairwise
      (fun r s => r.info.idx ≠ s.info.idx) := by
    have hs : ((phase2Recs saleDate rows currentIncome target).map Alloc.info).Pairwise
        (fun a b => a.idx ≠ b.idx) :=
      List.Pairwise.sublist (phase2_info_sublist _ _ _) (capLosses_pairwise hpair)
    exact (@List.pairwise_map Alloc GrantInfo Alloc.info (fun a b => a.idx ≠ b.idx) _).mp hs
  have hcross : ∀ r ∈ phase1Recs saleDate rows currentIncome target,
      ∀ s ∈ phase2Recs saleDate rows currentIncome target, r.info.idx ≠ s.info.idx := by
    intro r hr s hs heq
    have hrg : r.info ∈ s102Gains (grantsToProcess saleDate rows) :=
      (phase1_info_sublist _ _ _).subset (List.mem_map_of_mem _ hr)
    have hsg : s.info ∈ capLosses (grantsToProcess saleDate rows) :=
      (phase2_info_sublist _ _ _).subset (List.mem_map_of_mem _ hs)
    obtain ⟨hr1, hr2⟩ := mem_s102Gains hrg
    obtain ⟨hs1, hs2⟩ := mem_capLosses hsg
    have heqi : r.info = s.info := eq_of_mem_pairwise_idx hpair hr1 hs1 heq
    rw [heqi] at hr2
    linarith
  have hnd : ((optimizeRecs saleDate rows currentIncome target).map fun r => r.info.idx).Nodup := by
    unfold optimizeRecs
    rw [List.map_append]
    apply List.pairwise_append.mpr
    refine ⟨List.pairwise_map.mpr hp1, List.pairwise_map.mpr hp2, ?_⟩
    intro a ha b hb
    obtain ⟨r, hr, rfl⟩ := List.mem_map.mp ha
    obtain ⟨s, hs, rfl⟩ := List.mem_map.mp hb
    exact hcross r hr s hs
  exact ⟨hbounds, hnd, unitsSoldFor_le_of_nodup _ hbounds hnd⟩

theorem optimizeRecs_grant_bounds_witness :
    0 < (10 : ℤ) ∧ (10 : ℤ) ≤ ((10 : Nat) : ℤ) := by
  have hm : optimizeRecs ⟨2025, 10, 12⟩
      [(⟨"G", "G", ⟨2020, 1, 1⟩, ⟨2021, 1, 1⟩, 10, "Capital Gains Route"⟩,
        ⟨some 570, some 1, some 175, some 1, none, none⟩),
       (⟨"L", "L", ⟨2020, 1, 1⟩, ⟨2021, 1, 1⟩, 10, "None"⟩,
        ⟨some 1, some 1, some 2, some 1, some 3, some 1⟩)] 100000 269280 =
      [⟨⟨0, 10, 175, 395, 570, "§102 Capital Gains Route", .fin (395/175)⟩, 10⟩,
       ⟨⟨1, 10, 0, -2, 1, "Non-§102: Capital gain/loss from vest date.", .fin 0⟩, 10⟩] := by
    with_unfolding_all rfl
  exact (optimizeRecs_grant_bounds ⟨2025, 10, 12⟩
      [(⟨"G", "G", ⟨2020, 1, 1⟩, ⟨2021, 1, 1⟩, 10, "Capital Gains Route"⟩,
        ⟨some 570, some 1, some 175, some 1, none, none⟩),
       (⟨"L", "L", ⟨2020, 1, 1⟩, ⟨2021, 1, 1⟩, 10, "None"⟩,
        ⟨some 1, some 1, some 2, some 1, some 3, some 1⟩)] 100000 269280).1
    ⟨⟨1, 10, 0, -2, 1, "Non-§102: Capital gain/loss from vest date.", .fin 0⟩, 10⟩
    (by rw [hm]; exact List.mem_cons_of_mem _ (List.mem_singleton_self _))

/-- C1: end-to-end scenario.  One Capital Gains Route grant held more than
24 months, per-share ordinary component 175.00 and capital component 395.00
(sale 570, base 175 in settlement currency), 100 units, `currentIncome`
100000 and `targetBracketCeiling` 269280: the optimizer recommends exactly
`unitsToSell = 100`, ordinary total 17500.00, capital total 39500.00, income
tax 2450.00 (marginal tax on the 17500 slice starting at 100000 under the
2025 bracket table), capital-gains tax 9875.00 at the flat 0.25 rate, and
net proceeds 44675.00. -/
theorem end_to_end_scenario :
    optimize_rsu_sales ⟨2025, 10, 12⟩
        [(⟨"Example Corp", "EX", ⟨2020, 1, 1⟩, ⟨2021, 1, 1⟩, 100, "Capital Gains Route"⟩,
          ⟨some 570, some 1, some 175, some 1, none, none⟩)] 100000 269280 =
      [⟨100, 17500, 39500, 2450, 9875, 12325, 44675, "§102 Capital Gains Route"⟩] := by
  have hm : optimizeRecs ⟨2025, 10, 12⟩
      [(⟨"Example Corp", "EX", ⟨2020, 1, 1⟩, ⟨2021, 1, 1⟩, 100, "Capital Gains Route"⟩,
        ⟨some 570, some 1, some 175, some 1, none, none⟩)] 100000 269280 =
      [⟨⟨0, 100, 175, 395, 570, "§102 Capital Gains Route", .fin (395/175)⟩, 100⟩] := by
    with_unfolding_all rfl
  unfold optimize_rsu_sales
  rw [hm]
  with_unfolding_all rfl
